import Mathlib

/-!
Shallow embedding of the transaction-ingestion / rule-engine core of the
PersonalFinanceTracking repository (backend/services/{categorize,hashutil,
import_csv,rules}.py), together with proofs checking the natural-language
specification against it.

Modelling conventions:
* Python `float` amounts are modelled as exact rationals (`ℚ`); the inputs
  exercised here are small decimal literals whose two-decimal rounding agrees
  with IEEE-double behaviour.
* Python `str` is modelled as Lean `String`; the strings handled by this core
  are ASCII, so ASCII case-mapping (`Char.toUpper`/`Char.toLower`) is faithful.
* A raised Python exception is modelled as `Except.error ()`.
* `None`-or-value parameters are modelled as `Option`.
-/

deriving instance DecidableEq for Except

namespace PFT

/-! ### Python value model (for transaction dicts and rule conditions) -/

/-- Model of a Python value as stored in a transaction dict or a rule
condition/action. `dict`-valued fields do not occur in this core and are
omitted. -/
inductive PyVal where
  | none
  | bool (b : Bool)
  | num (q : ℚ)
  | str (s : String)
  | list (l : List PyVal)

/-- Python truthiness (`bool(v)`): `None`, `False`, `0`, `""` and `[]` are
falsy. -/
def pyTruthy : PyVal → Bool
  | .none => false
  | .bool b => b
  | .num q => q != 0
  | .str s => s != ""
  | .list l => !l.isEmpty

/- Python `==` on the modelled values (used by `set` deduplication in
`add_tag`). Cross-type numeric equalities such as `1 == True` are outside the
model. -/
mutual
def pvBeq : PyVal → PyVal → Bool
  | .none, .none => true
  | .bool a, .bool b => a == b
  | .num a, .num b => a == b
  | .str a, .str b => a == b
  | .list a, .list b => pvListBeq a b
  | _, _ => false
def pvListBeq : List PyVal → List PyVal → Bool
  | [], [] => true
  | a :: as, b :: bs => pvBeq a b && pvListBeq as bs
  | _, _ => false
end

/-! ### Character/string helpers (ASCII) -/

/-- Python whitespace characters relevant to `str.strip()` (ASCII range). -/
def isPyWS (c : Char) : Bool :=
  c == ' ' || c == '\t' || c == '\n' || c == '\r' || c == '\x0b' || c == '\x0c'

/-- Drop leading and trailing Python whitespace, as `str.strip()`. -/
def stripWS (l : List Char) : List Char :=
  ((l.dropWhile isPyWS).reverse.dropWhile isPyWS).reverse

/-- Case-insensitive "starts with": `pat` is stored lower-case and is compared
against the lower-cased text. -/
def leadsCI : List Char → List Char → Bool
  | [], _ => true
  | _ :: _, [] => false
  | p :: ps, c :: cs => p == c.toLower && leadsCI ps cs

/-- Case-insensitive substring test (`re.search` of a literal pattern under
the `(?i)` flag, or Python's `in` after `.lower()`). -/
def hasSubCI (pat : List Char) : List Char → Bool
  | [] => leadsCI pat []
  | c :: cs => leadsCI pat (c :: cs) || hasSubCI pat cs

/-! ### `categorize.py`: `normalize_merchant`

Source:
```
def normalize_merchant(desc):
    if not desc: return None
    m = re.sub(r"[^a-zA-Z0-9\\s]", "", desc)
    m = re.sub(r"\\s+", " ", m).strip().upper()
    return m
```
Note the raw strings contain a doubled backslash, so the first character class
is "ASCII letter, digit, backslash or the letter s" (NOT whitespace), and the
second pattern matches a literal backslash followed by one or more letters
`s`. The embedding below translates those concrete regexes exactly. -/

/-- Characters kept by `re.sub(r"[^a-zA-Z0-9\\s]", "", _)`: ASCII letters,
digits, and the backslash (the extra `s` in the class is already a letter). -/
def keepCls (c : Char) : Bool := c.isAlpha || c.isDigit || c == '\\'

/-- `re.sub(r"\\s+", " ", _)`: replace every non-overlapping, left-to-right,
greedy occurrence of a literal backslash followed by one or more `s`
characters by a single space. The `Bool` flag records that we are inside the
`s`-run of a match begun earlier. -/
def collapseGo : Bool → List Char → List Char
  | _, [] => []
  | true, 's' :: rest => collapseGo true rest
  | _, '\\' :: 's' :: rest => ' ' :: collapseGo true rest
  | _, c :: rest => c :: collapseGo false rest

/-- The full `re.sub(r"\\s+", " ", _)` substitution. -/
def collapseBsS (l : List Char) : List Char := collapseGo false l

/-- `normalize_merchant` from `backend/services/categorize.py`. -/
def normalize_merchant (desc : Option String) : Option String :=
  match desc with
  | Option.none => Option.none
  | some s =>
    if s = "" then Option.none
    else some (String.mk ((stripWS (collapseBsS (s.data.filter keepCls))).map Char.toUpper))

/-! ### `categorize.py`: `heuristic_category` -/

/-- Shapes of the concrete regex patterns in `COMMON_MERCHANTS`. Every pattern
is `(?i)` + literal text, where three of them additionally contain the raw
sequence `\\s*` (a literal backslash followed by zero or more `s`). -/
inductive MPat where
  | plain (pat : String)
  | bsS (pre post : String)
deriving DecidableEq

/-- Try to consume `pat` (stored lower-case) case-insensitively from the front
of the text, returning the rest on success. -/
def eatCI : List Char → List Char → Option (List Char)
  | [], s => some s
  | _ :: _, [] => Option.none
  | p :: ps, c :: cs => if p == c.toLower then eatCI ps cs else Option.none

/-- After the literal backslash of a `\\s*` pattern: skip zero or more `s`/`S`
characters (the `(?i)` flag makes `s` case-insensitive) and then match `post`. -/
def sTail (post : List Char) : List Char → Bool
  | [] => leadsCI post []
  | c :: cs => leadsCI post (c :: cs) || ((c == 's' || c == 'S') && sTail post cs)

/-- Match `pre ++ '\\' ++ s* ++ post` at the current position. -/
def matchBsSAt (pre post : List Char) (s : List Char) : Bool :=
  match eatCI pre s with
  | some ('\\' :: rest) => sTail post rest
  | _ => false

/-- Unanchored search for `pre ++ '\\' ++ s* ++ post`, case-insensitively. -/
def searchBsS (pre post : List Char) : List Char → Bool
  | [] => matchBsSAt pre post []
  | c :: cs => matchBsSAt pre post (c :: cs) || searchBsS pre post cs

/-- `re.search(pattern, text) is not None` for the concrete pattern shapes of
`COMMON_MERCHANTS`. -/
def reMatch : MPat → String → Bool
  | .plain p, s => hasSubCI p.data s.data
  | .bsS a b, s => searchBsS a.data b.data s.data

/-- The `COMMON_MERCHANTS` table of `categorize.py`, in declaration order
(`dict` iteration preserves insertion order). The literal parts are stored
lower-case; matching is case-insensitive. -/
def COMMON_MERCHANTS : List (MPat × String) :=
  [ (MPat.bsS "trader" "joe", "groceries"),
    (MPat.bsS "whole" "foods", "groceries"),
    (MPat.plain "costco", "groceries"),
    (MPat.plain "netflix", "subscriptions"),
    (MPat.plain "spotify", "subscriptions"),
    (MPat.bsS "uber" "eats", "dining"),
    (MPat.plain "mcdonald", "dining"),
    (MPat.plain "starbucks", "coffee") ]

/-- `heuristic_category` from `backend/services/categorize.py`: first matching
pattern against the raw description wins, with fixed confidence `0.7`. The
`merchant_norm` argument is accepted but (as in the source) never read. -/
def heuristic_category (merchant_norm description_raw : Option String) :
    Option String × ℚ :=
  let _ := merchant_norm
  let cand := description_raw.getD ""
  match COMMON_MERCHANTS.find? (fun pc => reMatch pc.1 cand) with
  | some pc => (some pc.2, mkRat 7 10)
  | Option.none => (Option.none, 0)

/-! ### `hashutil.py`: amount formatting and `txn_dedupe_hash` -/

/-- Round the fraction `n / d` (with `d > 0`) to the nearest integer, ties to
even — the rounding used by Python's fixed-point float formatting. Computed on
the numerator/denominator to stay kernel-reducible. -/
def roundHalfEvenND (n : ℤ) (d : ℕ) : ℤ :=
  let f := Int.fdiv n d
  let rem2 := 2 * (n - f * d)
  if rem2 < d then f
  else if (d : ℤ) < rem2 then f + 1
  else if f % 2 = 0 then f else f + 1

/-- Render a natural number in decimal. -/
def natDigits (n : ℕ) : String := toString n

/-- Python `f"{amount:.2f}"` on a (rational-modelled) amount: round the
magnitude times 100 to an integer (half-even) and print sign, integer part and
exactly two fractional digits. A negative amount that rounds to zero prints
as `-0.00`, as Python does. -/
def formatF2 (q : ℚ) : String :=
  let n := (roundHalfEvenND (100 * q.num.natAbs) q.den).toNat
  let ip := n / 100
  let fr := n % 100
  let s := natDigits ip ++ "." ++ (if fr < 10 then "0" ++ natDigits fr else natDigits fr)
  if q < 0 then "-" ++ s else s

/-! SHA-256 (FIPS 180-4), over byte lists, producing the lower-case hex digest
as `hashlib.sha256(_).hexdigest()` does. -/

/-- Right-rotation of a 32-bit word. -/
def rotr32 (n w : ℕ) : ℕ := (w >>> n) ||| ((w <<< (32 - n)) % 4294967296)

/-- The 64 SHA-256 round constants (FIPS 180-4 §4.2.2, written in decimal). -/
def shaK : List ℕ :=
  [1116352408, 1899447441, 3049323471, 3921009573, 961987163, 1508970993,
   2453635748, 2870763221, 3624381080, 310598401, 607225278, 1426881987,
   1925078388, 2162078206, 2614888103, 3248222580, 3835390401, 4022224774,
   264347078, 604807628, 770255983, 1249150122, 1555081692, 1996064986,
   2554220882, 2821834349, 2952996808, 3210313671, 3336571891, 3584528711,
   113926993, 338241895, 666307205, 773529912, 1294757372, 1396182291,
   1695183700, 1986661051, 2177026350, 2456956037, 2730485921, 2820302411,
   3259730800, 3345764771, 3516065817, 3600352804, 4094571909, 275423344,
   430227734, 506948616, 659060556, 883997877, 958139571, 1322822218,
   1537002063, 1747873779, 1955562222, 2024104815, 2227730452, 2361852424,
   2428436474, 2756734187, 3204031479, 3329325298]

/-- Working state of the compression function. -/
structure Hash8 where
  a : ℕ
  b : ℕ
  c : ℕ
  d : ℕ
  e : ℕ
  f : ℕ
  g : ℕ
  h : ℕ

/-- Group a byte list into big-endian 32-bit words. -/
def toWords : List ℕ → List ℕ
  | b0 :: b1 :: b2 :: b3 :: rest => (((b0 * 256 + b1) * 256 + b2) * 256 + b3) :: toWords rest
  | _ => []

/-- Extend the 16-word schedule by `fuel` more words. -/
def extendSchedule : ℕ → Array ℕ → Array ℕ
  | 0, ws => ws
  | n + 1, ws =>
    let i := ws.size
    let w15 := ws.getD (i - 15) 0
    let w2 := ws.getD (i - 2) 0
    let w16 := ws.getD (i - 16) 0
    let w7 := ws.getD (i - 7) 0
    let s0 := (rotr32 7 w15) ^^^ (rotr32 18 w15) ^^^ (w15 >>> 3)
    let s1 := (rotr32 17 w2) ^^^ (rotr32 19 w2) ^^^ (w2 >>> 10)
    extendSchedule n (ws.push ((w16 + s0 + w7 + s1) % 4294967296))

/-- One round of the SHA-256 compression function. -/
def compressStep (st : Hash8) (kw : ℕ × ℕ) : Hash8 :=
  let s1 := (rotr32 6 st.e) ^^^ (rotr32 11 st.e) ^^^ (rotr32 25 st.e)
  let ch := (st.e &&& st.f) ^^^ ((st.e ^^^ 4294967295) &&& st.g)
  let t1 := (st.h + s1 + ch + kw.1 + kw.2) % 4294967296
  let s0 := (rotr32 2 st.a) ^^^ (rotr32 13 st.a) ^^^ (rotr32 22 st.a)
  let mj := (st.a &&& st.b) ^^^ (st.a &&& st.c) ^^^ (st.b &&& st.c)
  let t2 := (s0 + mj) % 4294967296
  ⟨(t1 + t2) % 4294967296, st.a, st.b, st.c, (st.d + t1) % 4294967296, st.e, st.f, st.g⟩

/-- Process one 64-byte block. -/
def processBlock (st : Hash8) (block : List ℕ) : Hash8 :=
  let ws := extendSchedule 48 (toWords block).toArray
  let r := (shaK.zip ws.toList).foldl compressStep st
  ⟨(st.a + r.a) % 4294967296, (st.b + r.b) % 4294967296, (st.c + r.c) % 4294967296,
   (st.d + r.d) % 4294967296, (st.e + r.e) % 4294967296, (st.f + r.f) % 4294967296,
   (st.g + r.g) % 4294967296, (st.h + r.h) % 4294967296⟩

/-- Big-endian byte rendering of a number in `n` bytes. -/
def beBytes : ℕ → ℕ → List ℕ
  | 0, _ => []
  | n + 1, v => beBytes n (v / 256) ++ [v % 256]

/-- SHA-256 message padding. -/
def padMsg (msg : List ℕ) : List ℕ :=
  let len := msg.length
  let zeros := (64 - ((len + 9) % 64)) % 64
  msg ++ [128] ++ List.replicate zeros 0 ++ beBytes 8 (8 * len)

/-- Split into 64-byte blocks (fuel-driven to stay kernel-reducible). -/
def toBlocksF : ℕ → List ℕ → List (List ℕ)
  | 0, _ => []
  | _ + 1, [] => []
  | n + 1, c :: rest => ((c :: rest).take 64) :: toBlocksF n ((c :: rest).drop 64)

/-- Split a byte list into 64-byte blocks. -/
def toBlocks (l : List ℕ) : List (List ℕ) := toBlocksF l.length l

/-- Lower-case hex digit. -/
def hexChar (n : ℕ) : Char :=
  if n < 10 then Char.ofNat (48 + n) else Char.ofNat (87 + n)

/-- Eight hex digits of a 32-bit word. -/
def word8hex (w : ℕ) : List Char :=
  (List.range 8).map (fun i => hexChar ((w >>> ((7 - i) * 4)) % 16))

/-- SHA-256 of a byte list, as a lower-case hex string. -/
def sha256hex (msg : List ℕ) : String :=
  let st0 : Hash8 := ⟨1779033703, 3144134277, 1013904242, 2773480762,
                      1359893119, 2600822924, 528734635, 1541459225⟩
  let st := (toBlocks (padMsg msg)).foldl processBlock st0
  String.mk (word8hex st.a ++ word8hex st.b ++ word8hex st.c ++ word8hex st.d ++
             word8hex st.e ++ word8hex st.f ++ word8hex st.g ++ word8hex st.h)

/-- UTF-8 encoding of one character. -/
def utf8Char (c : Char) : List ℕ :=
  let n := c.toNat
  if n < 128 then [n]
  else if n < 2048 then [192 + n / 64, 128 + n % 64]
  else if n < 65536 then [224 + n / 4096, 128 + (n / 64) % 64, 128 + n % 64]
  else [240 + n / 262144, 128 + (n / 4096) % 64, 128 + (n / 64) % 64, 128 + n % 64]

/-- UTF-8 encoding of a string (`str.encode('utf-8')`). -/
def utf8Str (s : String) : List ℕ :=
  s.data.foldr (fun c acc => utf8Char c ++ acc) []

/-- Python f-string rendering of a `str`-or-`None` value (`None` prints as
`"None"`). -/
def pyOptRepr : Option String → String
  | some s => s
  | Option.none => "None"

/-- Python `x or ''` on a `str`-or-`None` value. -/
def orEmpty (o : Option String) : String := o.getD ""

/-- The canonical pipe-joined key built by `txn_dedupe_hash`. -/
def dedupeKey (account_id : String) (posted_at : Option String) (amount : ℚ)
    (merchant description_raw : Option String) : String :=
  account_id ++ "|" ++ pyOptRepr posted_at ++ "|" ++ formatF2 amount ++ "|" ++
    orEmpty merchant ++ "|" ++ orEmpty description_raw

/-- `txn_dedupe_hash` from `backend/services/hashutil.py`:
`sha256(f"{account_id}|{posted_at}|{amount:.2f}|{merchant or ''}|{description_raw or ''}")`.
The `posted_at` argument is annotated `str` in the source but the CSV ingestor
can pass `None`, which the f-string renders as `"None"`. -/
def txn_dedupe_hash (account_id : String) (posted_at : Option String) (amount : ℚ)
    (merchant description_raw : Option String) : String :=
  sha256hex (utf8Str (dedupeKey account_id posted_at amount merchant description_raw))

/-! ### `import_csv.py`: CSV parsing

`parse_csv_and_build_docs` decodes the upload as UTF-8 (best effort) and feeds
it to `csv.DictReader`. The embedding models the decoded text directly and the
comma-separated dialect without quoting (none of the inputs considered here
contain quote characters). -/

/-- Numeric value of a digit string. -/
def digitsToNat (l : List Char) : ℕ :=
  l.foldl (fun a c => 10 * a + (c.toNat - 48)) 0

/-- Python `float(str)` on the decimal forms `[+-]?digits[.digits]?[eE[+-]digits]?`
with surrounding whitespace allowed. `inf`, `nan` and underscore separators are
outside the model (treated as unparsable). Returns `none` where Python raises
`ValueError`. -/
def pyFloatOfString (s : String) : Option ℚ :=
  let t := stripWS s.data
  let sr : ℤ × List Char :=
    match t with
    | '+' :: r => (1, r)
    | '-' :: r => (-1, r)
    | _ => (1, t)
  let ds := sr.2.takeWhile Char.isDigit
  let r1 := sr.2.dropWhile Char.isDigit
  let fsr : List Char × List Char :=
    match r1 with
    | '.' :: r => (r.takeWhile Char.isDigit, r.dropWhile Char.isDigit)
    | _ => ([], r1)
  if ds.isEmpty && fsr.1.isEmpty then Option.none
  else
    let mant : ℤ := sr.1 * (digitsToNat (ds ++ fsr.1) : ℤ)
    let fl := fsr.1.length
    match fsr.2 with
    | [] => some (mkRat mant (10 ^ fl))
    | e :: r3 =>
      if e == 'e' || e == 'E' then
        let er : Bool × List Char :=
          match r3 with
          | '+' :: r => (false, r)
          | '-' :: r => (true, r)
          | _ => (false, r3)
        let es := er.2.takeWhile Char.isDigit
        let r5 := er.2.dropWhile Char.isDigit
        if es.isEmpty || !r5.isEmpty then Option.none
        else if er.1 then some (mkRat mant (10 ^ fl * 10 ^ digitsToNat es))
        else some (mkRat (mant * 10 ^ digitsToNat es) (10 ^ fl))
      else Option.none

/-- Split a character list at every occurrence of `sep`. -/
def splitOnChar (sep : Char) : List Char → List (List Char)
  | [] => [[]]
  | c :: rest =>
    let r := splitOnChar sep rest
    if c == sep then [] :: r
    else
      match r with
      | g :: gs => (c :: g) :: gs
      | [] => [[c]]

/-- Lines of the decoded upload: split on newline, tolerating CRLF endings. -/
def csvLines (text : String) : List (List Char) :=
  (splitOnChar '\n' text.data).map
    (fun l => if l.getLast? == some '\r' then l.dropLast else l)

/-- Comma-separated fields of one line (quoting not modelled). -/
def splitFields (l : List Char) : List String :=
  (splitOnChar ',' l).map String.mk

/-- A `csv.DictReader` row: every header name paired with the field at its
column, `none` (Python `None`, the `restval`) when the row is shorter. -/
abbrev Row := List (String × Option String)

/-- Build the dict for one data row. -/
def mkRow (hdr : List String) (fields : List String) : Row :=
  hdr.enum.map (fun p => (p.2, fields[p.1]?))

/-- `row.get(k)`: `None` when the key is absent; for duplicate header names the
later column wins, as in `dict(zip(...))`. -/
def rowGet (row : Row) (k : String) : Option String :=
  match row.reverse.find? (fun p => p.1 == k) with
  | some p => p.2
  | Option.none => Option.none

/-- Truthiness of a CSV cell (`None` and `""` are falsy). -/
def truthyCell : Option String → Bool
  | some s => s != ""
  | Option.none => false

/-- Python `a or b` on CSV cells: `a` when truthy, otherwise `b` as given. -/
def pyOrCell (a b : Option String) : Option String :=
  if truthyCell a then a else b

/-- The data rows seen by the `for row in reader` loop: everything after the
header line, with blank lines skipped (the `DictReader` skips empty rows). -/
def csvDataRows (text : String) : List Row :=
  match csvLines text with
  | [] => []
  | hdr :: rest =>
    (rest.filter (fun l => !l.isEmpty)).map (fun l => mkRow (splitFields hdr) (splitFields l))

/-- The transaction-candidate document assembled per row. -/
structure TxnDoc where
  tenantId : String
  accountId : String
  postedAt : Option String
  amount : ℚ
  currency : String
  merchant : Option String
  descriptionRaw : String
  categoryId : Option String
  categoryConfidence : ℚ
  isPending : Bool
  dedupeHash : String
deriving DecidableEq

/-- The per-row body of `parse_csv_and_build_docs`. The `float(...)` call on a
truthy unparsable amount cell raises `ValueError`, modelled as `Except.error`. -/
def buildDoc (tenant_id account_id currency : String) (row : Row) : Except Unit TxnDoc := do
  let posted_at := pyOrCell (rowGet row "Date")
    (pyOrCell (rowGet row "Posted") (rowGet row "posted_at"))
  let amtCell := pyOrCell (rowGet row "Amount") (rowGet row "amount")
  let amount ←
    if truthyCell amtCell then
      match pyFloatOfString (amtCell.getD "") with
      | some q => Except.ok q
      | Option.none => Except.error ()
    else Except.ok 0
  let desc := (pyOrCell (rowGet row "Description")
    (pyOrCell (rowGet row "Payee") (rowGet row "Memo"))).getD ""
  let merchant_norm := normalize_merchant (some desc)
  let dedupe := txn_dedupe_hash account_id posted_at amount merchant_norm (some desc)
  let cg := heuristic_category merchant_norm (some desc)
  Except.ok
    { tenantId := tenant_id, accountId := account_id, postedAt := posted_at,
      amount := amount, currency := currency, merchant := merchant_norm,
      descriptionRaw := desc, categoryId := cg.1, categoryConfidence := cg.2,
      isPending := false, dedupeHash := dedupe }

/-- `parse_csv_and_build_docs` from `backend/services/import_csv.py` (the
byte-decoding step is modelled by taking the decoded text). -/
def parse_csv_and_build_docs (text : String) (tenant_id account_id : String)
    (currency : String := "USD") : Except Unit (List TxnDoc) :=
  (csvDataRows text).mapM (buildDoc tenant_id account_id currency)

/-! ### `import_csv.py`: `bulk_upsert_transactions`

The Mongo collection is modelled as an in-memory list of documents plus the
semantics of `UpdateOne(filter, {$setOnInsert: doc}, upsert=True)`: a document
whose composite key `(tenantId, accountId, dedupeHash)` is already present is
counted as matched and left untouched; otherwise the document is inserted. -/

/-- Aggregate result counts of a bulk write. -/
structure Counts where
  upserts : ℕ
  matched : ℕ
  modified : ℕ
deriving DecidableEq

/-- The upsert filter `(tenantId, accountId, dedupeHash)`. -/
def sameKey (a b : TxnDoc) : Bool :=
  a.tenantId == b.tenantId && a.accountId == b.accountId && a.dedupeHash == b.dedupeHash

/-- One `UpdateOne(..., {$setOnInsert: d}, upsert=True)` against the store. -/
def applyUpsertOp (s : List TxnDoc × Counts) (d : TxnDoc) : List TxnDoc × Counts :=
  if s.1.any (sameKey d) then (s.1, { s.2 with matched := s.2.matched + 1 })
  else (s.1 ++ [d], { s.2 with upserts := s.2.upserts + 1 })

/-- `col.bulk_write(ops, ordered=False)`. -/
def bulk_write (store : List TxnDoc) (ops : List TxnDoc) : List TxnDoc × Counts :=
  ops.foldl applyUpsertOp (store, ⟨0, 0, 0⟩)

/-- `bulk_upsert_transactions` from `backend/services/import_csv.py`: build one
op per document; call `bulk_write` only when the op list is non-empty,
otherwise return all-zero counts without touching the store. -/
def bulk_upsert_transactions (store : List TxnDoc) (docs : List TxnDoc) :
    List TxnDoc × Counts :=
  let ops := docs
  if !ops.isEmpty then bulk_write store ops
  else (store, ⟨0, 0, 0⟩)

/-! ### `rules.py`: the rule engine

A transaction is a Python dict, modelled as an association list with distinct
keys (first binding wins on lookup, as for a dict). The regex operator
delegates to Python's `re.search` on an arbitrary tenant-supplied pattern;
that engine is not part of this repository, so the development is uniformly
parameterised by a function `reSearch : String → String → Except Unit Bool`
(`error` modelling a raised `re.error`/`TypeError`). Every theorem below holds
for every such parameter. -/

/-- A transaction dict. -/
abbrev Txn := List (String × PyVal)

/-- `txn.get(k)` (`None` when absent). -/
def getKey (txn : Txn) (k : String) : PyVal :=
  match txn.find? (fun p => p.1 == k) with
  | some p => p.2
  | Option.none => PyVal.none

/-- `out[k] = v` on a dict: replace the existing binding, else append. -/
def setKey (k : String) (v : PyVal) : Txn → Txn
  | [] => [(k, v)]
  | p :: rest => if p.1 == k then (k, v) :: rest else p :: setKey k v rest

/-- Python `str()` of a rational-modelled float, used only to build the text
that `regex`/`contains` conditions inspect. Terminating decimals are rendered
exactly (`12.5` → `"12.5"`, integers with a trailing `.0`); the shortest-repr
subtleties of genuine IEEE floats are outside the model. -/
def pyStrQ (q : ℚ) : String :=
  let sgn := if q.num < 0 then "-" else ""
  if q.den = 1 then sgn ++ natDigits q.num.natAbs ++ ".0"
  else if 10 ^ 30 % q.den = 0 then
    let scaled := q.num.natAbs * (10 ^ 30 / q.den)
    let ip := scaled / 10 ^ 30
    let frDigits :=
      (natDigits (10 ^ 30 + scaled % 10 ^ 30)).data.drop 1
    let trimmed := (frDigits.reverse.dropWhile (· == '0')).reverse
    sgn ++ natDigits ip ++ "." ++ String.mk (if trimmed.isEmpty then ['0'] else trimmed)
  else sgn ++ natDigits q.num.natAbs ++ "/" ++ natDigits q.den

/-- Python `str()` of a modelled value. List rendering is not needed by any
claim and is abbreviated. -/
def pyStr : PyVal → String
  | .none => "None"
  | .bool b => if b then "True" else "False"
  | .num q => pyStrQ q
  | .str s => s
  | .list _ => "[...]"

/-- Python `float()` coercion of a value: numbers and booleans coerce, decimal
strings parse, everything else (`None`, lists, malformed strings) raises. -/
def pyFloat : PyVal → Except Unit ℚ
  | .num q => .ok q
  | .bool b => .ok (if b then 1 else 0)
  | .str s =>
    match pyFloatOfString s with
    | some q => .ok q
    | Option.none => .error ()
  | _ => .error ()

/-- One entry of a rule's `conditions` list (`cond.get("field"/"op"/"value")`,
absent keys giving `None`). -/
structure Cond where
  field : Option String
  op : Option String
  value : PyVal

/-- One entry of a rule's `actions` list (`act.get("type"/"category_id"/"to"/"tag")`).
The dict key `"to"` is a Lean keyword, hence the field name `toVal`. -/
structure Act where
  type : Option String
  category_id : PyVal
  toVal : PyVal
  tag : PyVal

/-- A rule document as supplied to `pick_rule`; `none` fields model absent
dict keys, for which `Rule.__init__` substitutes defaults. -/
structure RuleDoc where
  priority : Option ℚ
  enabled : Option Bool
  conditions : Option (List Cond)
  actions : Option (List Act)

/-- A compiled `Rule` object: the original doc plus the extracted
`priority`/`enabled`/`conditions`/`actions` with their defaults. -/
structure RuleC where
  rule : RuleDoc
  priority : ℚ
  enabled : Bool
  conditions : List Cond
  actions : List Act

/-- `Rule.__init__`: defaults are `priority=1000`, `enabled=True`, empty
condition and action lists. -/
def mkRule (d : RuleDoc) : RuleC :=
  ⟨d, d.priority.getD 1000, d.enabled.getD true, d.conditions.getD [], d.actions.getD []⟩

/-- The truthiness test `r.get("enabled", True)` used by the `pick_rule`
filter, on the modelled boolean-or-absent field. -/
def enabledD (d : RuleDoc) : Bool := d.enabled.getD true

/-- The compiled priority of a doc. -/
def priD (d : RuleDoc) : ℚ := (mkRule d).priority

/-- The body of the `for cond in self.conditions` loop of `Rule.matches`:
`tv = (txn.get(field) or "")`, then dispatch on the operator. The `gte`/`lte`
branches evaluate `float(tv) < float(val)` (left to right), so a coercion
failure raises. An unknown or absent operator hits the `else: return False`
branch, a non-match. -/
def condTv (txn : Txn) (c : Cond) : PyVal :=
  let tvRaw := match c.field with
    | some f => getKey txn f
    | Option.none => PyVal.none
  if pyTruthy tvRaw then tvRaw else PyVal.str ""

/-- Operator dispatch on one condition (continuing the loop body). -/
def evalCond (reSearch : String → String → Except Unit Bool) (txn : Txn) (c : Cond) :
    Except Unit Bool :=
  let tv := condTv txn c
  match c.op with
  | some "regex" =>
    match c.value with
    | .str p => reSearch p (pyStr tv)
    | _ => .error ()
  | some "contains" =>
    .ok (hasSubCI ((pyStr c.value).data.map Char.toLower) (pyStr tv).data)
  | some "gte" => do
    let a ← pyFloat tv
    let b ← pyFloat c.value
    .ok (!(a < b))
  | some "lte" => do
    let a ← pyFloat tv
    let b ← pyFloat c.value
    .ok (!(b < a))
  | _ => .ok false

/-- The conjunction loop of `Rule.matches`: stop at the first failing
condition; an empty list matches. -/
def condsGo (reSearch : String → String → Except Unit Bool) (txn : Txn) :
    List Cond → Except Unit Bool
  | [] => .ok true
  | c :: cs => do
    let b ← evalCond reSearch txn c
    if b then condsGo reSearch txn cs else .ok false

/-- `Rule.matches` from `backend/services/rules.py`. -/
def RuleC.matches (reSearch : String → String → Except Unit Bool) (r : RuleC)
    (txn : Txn) : Except Unit Bool :=
  condsGo reSearch txn r.conditions

/-- Membership under Python `==`, for `set` semantics. -/
def pvMem (x : PyVal) (l : List PyVal) : Bool := l.any (pvBeq x)

/-- Deduplicate keeping first occurrences (`set(...)`; Python's set iteration
order is unspecified, so any fixed order is a sound model — no claim depends
on tag order). -/
def pvDedupGo (seen : List PyVal) : List PyVal → List PyVal
  | [] => []
  | x :: rest =>
    if pvMem x seen then pvDedupGo seen rest
    else x :: pvDedupGo (x :: seen) rest

/-- Deduplication entry point. -/
def pvDedup (l : List PyVal) : List PyVal := pvDedupGo [] l

/-- One iteration of the `for act in self.actions` loop of `Rule.apply`.
`add_tag` computes `set(out.get("tags") or [])`, which iterates a list or a
string (character-wise) and raises `TypeError` on any other truthy value. -/
def applyAct (out : Txn) (a : Act) : Except Unit Txn :=
  match a.type with
  | some "set_category" => .ok (setKey "categoryId" a.category_id out)
  | some "rename_merchant" => .ok (setKey "merchant" a.toVal out)
  | some "add_tag" =>
    match (if pyTruthy (getKey out "tags") then getKey out "tags" else PyVal.list []) with
    | .list l =>
      let dd := pvDedup l
      let nt := if pvMem a.tag dd then dd else dd ++ [a.tag]
      .ok (setKey "tags" (PyVal.list nt) out)
    | .str s =>
      let dd := pvDedup (s.data.map (fun ch => PyVal.str (String.mk [ch])))
      let nt := if pvMem a.tag dd then dd else dd ++ [a.tag]
      .ok (setKey "tags" (PyVal.list nt) out)
    | _ => .error ()
  | _ => .ok out

/-- `Rule.apply` from `backend/services/rules.py`: `out = dict(txn)` (a copy),
then each action updates `categoryId`, `merchant` or `tags`. -/
def RuleC.apply (r : RuleC) (txn : Txn) : Except Unit Txn :=
  r.actions.foldlM applyAct txn

/-- The sort key `lambda r: r.priority` of `compiled.sort`. -/
def lePri (a b : RuleC) : Prop := a.priority ≤ b.priority

instance : DecidableRel lePri :=
  fun a b => inferInstanceAs (Decidable (a.priority ≤ b.priority))

/-- The `for r in compiled: if r.matches(txn): return r.rule` loop. -/
def firstMatch (reSearch : String → String → Except Unit Bool) (txn : Txn) :
    List RuleC → Except Unit (Option RuleDoc)
  | [] => .ok Option.none
  | r :: rs => do
    let b ← RuleC.matches reSearch r txn
    if b then .ok (some r.rule) else firstMatch reSearch txn rs

/-- `pick_rule` from `backend/services/rules.py`: keep docs whose `enabled`
value is truthy (absent defaults to true), compile, sort ascending by priority
with a stable sort (Python's Timsort; extensionally `insertionSort` under the
total relation `lePri`), and return the first match. -/
def pick_rule (reSearch : String → String → Except Unit Bool)
    (rules : List RuleDoc) (txn : Txn) : Except Unit (Option RuleDoc) :=
  let compiled := (rules.filter (fun r => enabledD r)).map mkRule
  let sorted := List.insertionSort lePri compiled
  firstMatch reSearch txn sorted

/-! ### Sanity checks of the embedding's building blocks -/

/-- The SHA-256 implementation reproduces the FIPS 180-4 test vector for
`"abc"` (so the digests below are the ones `hashlib` would produce). -/
theorem sha256hex_fips_vector_abc :
    sha256hex (utf8Str "abc") =
      "ba7816bf8f01cfea414140de5dae2223b00361a396177a9cb410ff61f20015ad" := by decide

/-- The SHA-256 implementation reproduces the digest of the empty message. -/
theorem sha256hex_fips_vector_empty :
    sha256hex (utf8Str "") =
      "e3b0c44298fc1c149afbf4c8996fb92427ae41e4649b934ca495991b7852b855" := by decide

/-- The two-decimal formatting of the claims' amounts behaves as Python's
`f"{x:.2f}"` does on these inputs. -/
theorem formatF2_values :
    formatF2 (mkRat 10001 1000) = "10.00" ∧ formatF2 (mkRat 10004 1000) = "10.00" ∧
    formatF2 (mkRat (-25) 2) = "-12.50" ∧ formatF2 (mkRat (-1) 1000) = "-0.00" ∧
    formatF2 (mkRat 125 1000) = "0.12" := by decide

/-- Python `float()` parsing on representative strings. -/
theorem pyFloatOfString_values :
    pyFloatOfString "-12.50" = some (mkRat (-25) 2) ∧
    pyFloatOfString " 3.5e2 " = some 350 ∧
    pyFloatOfString ".5" = some (mkRat 1 2) ∧
    pyFloatOfString "abc" = Option.none ∧ pyFloatOfString "" = Option.none := by decide

/-- The doubled backslash makes the `trader\\s*joe` pattern dead: it cannot
match the text a Trader Joe's export actually contains. -/
theorem traderJoe_pattern_is_dead :
    reMatch (MPat.bsS "trader" "joe") "TRADER JOES" = false := by decide

/-! ### Shared concrete inputs for witnesses and counterexamples -/

/-- A trivial regex-search oracle (no rule below carries a regex condition,
so any value works for instantiating the `reSearch` parameter). -/
def reSearchF : String → String → Except Unit Bool := fun _ _ => .ok false

/-- The end-to-end CSV of the spec's §8 scenario. -/
def csvScenario : String := "Date,Amount,Description\n2024-03-01,-12.50,STARBUCKS #123"

/-! ### C2: the fingerprint is a function of the canonical key -/

/-- C2: `txn_dedupe_hash` depends on its amount only through the two-decimal
formatting, and on merchant/description only through their empty-when-absent
renderings: whenever those renderings agree, the hex digest is identical. -/
theorem C2_fingerprint_function_of_key
    (acct : String) (posted : Option String) (a1 a2 : ℚ)
    (m1 m2 d1 d2 : Option String)
    (hamt : formatF2 a1 = formatF2 a2) (hm : orEmpty m1 = orEmpty m2)
    (hd : orEmpty d1 = orEmpty d2) :
    txn_dedupe_hash acct posted a1 m1 d1 = txn_dedupe_hash acct posted a2 m2 d2 := by
  simp only [txn_dedupe_hash, dedupeKey, hamt, hm, hd]

/-- Witness: the spec's two-decimal collision, `10.001` and `10.004` both
formatting to `"10.00"`. -/
theorem C2_fingerprint_function_of_key_witness :
    txn_dedupe_hash "acct" (some "2024-01-01") (mkRat 10001 1000) (some "X") (some "Y") =
      txn_dedupe_hash "acct" (some "2024-01-01") (mkRat 10004 1000) (some "X") (some "Y") :=
  C2_fingerprint_function_of_key "acct" (some "2024-01-01") (mkRat 10001 1000)
    (mkRat 10004 1000) (some "X") (some "X") (some "Y") (some "Y")
    (by decide) rfl rfl

/-! ### C3: what `normalize_merchant` actually does to interior whitespace

The spec says interior whitespace is collapsed to single spaces; because the
raw-string character class `[^a-zA-Z0-9\\s]` contains a backslash rather than
a whitespace escape, the code removes interior spaces outright. -/

/-- C3 (divergence witness at the failing input): on `"AB CD"` the code yields
`"ABCD"`, not the `"AB CD"` the specified whitespace-preserving normalization
would produce. The divergence is exactly the whitespace handling: stripping of
punctuation, upper-casing and trimming behave as the claim describes. -/
theorem C3_normalize_removes_interior_space :
    normalize_merchant (some "AB CD") = some "ABCD" ∧
    normalize_merchant (some "AB CD") ≠ some "AB CD" ∧
    normalize_merchant (some "  ab-cd!  ") = some "ABCD" := by decide

/-! ### C6: the end-to-end scenario row -/

/-- C6 (actual behaviour at the spec's scenario): parsing the scenario CSV
yields exactly one candidate with `merchantNormalized = "STARBUCKS123"`
(the code strips the interior space; the spec expects `"STARBUCKS 123"`),
`categoryId = "coffee"`, confidence `0.7`, `isPending = false`. -/
theorem C6_end_to_end_actual :
    Except.map (List.map (fun d => (d.merchant, d.categoryId, d.categoryConfidence,
        d.isPending, d.amount)))
      (parse_csv_and_build_docs csvScenario "t1" "acct1") =
    Except.ok [(some "STARBUCKS123", some "coffee", mkRat 7 10, false, mkRat (-25) 2)] := by
  decide

/-! ### C7: idempotence of `normalize_merchant` -/

/-- C7 (counterexample): the first pass turns `"a\sb"` into `"A B"` (the
second substitution rewrites the literal `\s` to a space), but a second pass
strips that space, so normalization is not idempotent on the code as written. -/
theorem C7_normalize_not_idempotent :
    normalize_merchant (normalize_merchant (some "a\\sb")) ≠
      normalize_merchant (some "a\\sb") := by decide

/-! ### C9: empty-string result versus absent result -/

/-- C9: a punctuation-only (non-empty) description normalizes to the empty
string, not to the absent value; the absent value arises exactly for an absent
or empty input. -/
theorem C9_normalize_empty_vs_absent :
    normalize_merchant (some "$$$") = some "" ∧
    normalize_merchant Option.none = Option.none ∧
    normalize_merchant (some "") = Option.none ∧
    ∀ s : String, s ≠ "" → ∃ t : String, normalize_merchant (some s) = some t := by
  refine ⟨by decide, rfl, by decide, ?_⟩
  intro s hs
  refine ⟨String.mk ((stripWS (collapseBsS (s.data.filter keepCls))).map Char.toUpper), ?_⟩
  simp [normalize_merchant, hs]

/-- Witness for C9 at the punctuation-only input `"$$$"`. -/
theorem C9_normalize_empty_vs_absent_witness :
    ∃ t : String, normalize_merchant (some "$$$") = some t :=
  C9_normalize_empty_vs_absent.2.2.2 "$$$" (by decide)

/-! ### C8: empty upsert batch -/

/-- C8: `bulk_upsert_transactions` on an empty document list leaves the store
untouched (no `bulk_write` is issued) and returns all-zero counts. -/
theorem C8_empty_upsert_noop (store : List TxnDoc) :
    bulk_upsert_transactions store [] = (store, ⟨0, 0, 0⟩) := rfl

/-! ### C5: malformed amounts -/

/-- C5 (counterexample): a single row whose amount cell is the non-empty,
unparsable string `"abc"` makes the whole parse raise (`float("abc")` is a
`ValueError`), so parsing does NOT always return a candidate per data row. -/
theorem C5_unparsable_amount_raises :
    parse_csv_and_build_docs "Date,Amount,Description\n2024-01-01,abc,X" "t1" "acct1" =
      Except.error () := by decide

/-- The candidate built for a row whose amount cells are missing or empty
(amount defaulted to `0.0`). Proof-side description used by the amended C5. -/
def defaultDoc (t a c : String) (row : Row) : TxnDoc :=
  let posted_at := pyOrCell (rowGet row "Date")
    (pyOrCell (rowGet row "Posted") (rowGet row "posted_at"))
  let desc := (pyOrCell (rowGet row "Description")
    (pyOrCell (rowGet row "Payee") (rowGet row "Memo"))).getD ""
  let merchant_norm := normalize_merchant (some desc)
  { tenantId := t, accountId := a, postedAt := posted_at, amount := 0, currency := c,
    merchant := merchant_norm, descriptionRaw := desc,
    categoryId := (heuristic_category merchant_norm (some desc)).1,
    categoryConfidence := (heuristic_category merchant_norm (some desc)).2,
    isPending := false,
    dedupeHash := txn_dedupe_hash a posted_at 0 merchant_norm (some desc) }

/-- Per-row fact: when the amount cells are missing or empty, the row builds
successfully with amount `0.0`. -/
theorem buildDoc_amount_default (t a c : String) (row : Row)
    (h : truthyCell (pyOrCell (rowGet row "Amount") (rowGet row "amount")) = false) :
    buildDoc t a c row = Except.ok (defaultDoc t a c row) := by
  simp only [buildDoc, h, Bool.false_eq_true, if_false]
  rfl

/-- Row-list version of the amended C5, by induction on the rows. -/
theorem mapM_buildDoc_defaults (tenant acct cur : String) :
    ∀ rows : List Row,
      (∀ row ∈ rows, truthyCell (pyOrCell (rowGet row "Amount") (rowGet row "amount")) = false) →
      ∃ docs : List TxnDoc,
        rows.mapM (buildDoc tenant acct cur) = Except.ok docs ∧
        docs.length = rows.length ∧ ∀ d ∈ docs, d.amount = 0
  | [], _ => ⟨[], rfl, rfl, by simp⟩
  | r :: rs, h => by
    have hd := buildDoc_amount_default tenant acct cur r (h r (List.mem_cons_self r rs))
    obtain ⟨docs, hdocs, hlen, hall⟩ :=
      mapM_buildDoc_defaults tenant acct cur rs
        (fun row hrow => h row (List.mem_cons_of_mem r hrow))
    refine ⟨defaultDoc tenant acct cur r :: docs, ?_, by simp [hlen], ?_⟩
    · rw [List.mapM_cons, hd, hdocs]
      rfl
    · intro x hx
      rcases List.mem_cons.mp hx with h1 | h2
      · rw [h1]; rfl
      · exact hall x h2

/-- C5 (amended): if every data row's amount cells are missing or empty, the
parse succeeds, produces one candidate per data row, and every candidate's
amount is the default `0.0`. (The original claim's "or unparsable" case
instead raises, see the counterexample.) -/
theorem C5_missing_amount_defaults_to_zero
    (text tenant acct cur : String)
    (h : ∀ row ∈ csvDataRows text,
      truthyCell (pyOrCell (rowGet row "Amount") (rowGet row "amount")) = false) :
    ∃ docs : List TxnDoc,
      parse_csv_and_build_docs text tenant acct cur = Except.ok docs ∧
      docs.length = (csvDataRows text).length ∧
      ∀ d ∈ docs, d.amount = 0 :=
  mapM_buildDoc_defaults tenant acct cur (csvDataRows text) h

/-- Witness for the amended C5: one row with an empty amount cell and one row
with no amount column at all both default to `0.0`. -/
theorem C5_missing_amount_defaults_to_zero_witness :
    ∃ docs : List TxnDoc,
      parse_csv_and_build_docs "Date,Amount,Description\n2024-01-01,,lunch\n2024-01-02"
        "t1" "acct1" "USD" = Except.ok docs ∧
      docs.length = (csvDataRows "Date,Amount,Description\n2024-01-01,,lunch\n2024-01-02").length ∧
      ∀ d ∈ docs, d.amount = 0 :=
  C5_missing_amount_defaults_to_zero
    "Date,Amount,Description\n2024-01-01,,lunch\n2024-01-02" "t1" "acct1" "USD"
    (by decide)

/-! ### C4: numeric coercion failure in a `gte`/`lte` condition -/

/-- A rule whose single condition compares the (missing) `amount` field with
`gte`; `float("")` raises a `ValueError` in the source. -/
def gteBadRule : RuleDoc :=
  ⟨Option.none, Option.none, some [⟨some "amount", some "gte", PyVal.num 10⟩], Option.none⟩

/-- C4 (counterexample): evaluating the rule set `[gteBadRule]` against the
empty transaction raises — `pick_rule` surfaces the error instead of treating
the rule as a non-match, contradicting the claim that callers never see a
raised error. -/
theorem C4_coercion_failure_raises :
    pick_rule reSearchF [gteBadRule] [] = Except.error () := rfl

/-- C4 (amended): when the leading condition of a rule uses `gte`/`lte` and
either float coercion fails, `Rule.matches` propagates the raised error, and
so does `pick_rule` when the rule is enabled. -/
theorem C4_amended_coercion_failure_propagates
    (reSearch : String → String → Except Unit Bool) (txn : Txn) (d : RuleDoc)
    (c : Cond) (rest : List Cond)
    (hconds : (mkRule d).conditions = c :: rest)
    (hop : c.op = some "gte" ∨ c.op = some "lte")
    (hco : pyFloat (condTv txn c) = Except.error () ∨ pyFloat c.value = Except.error ()) :
    RuleC.matches reSearch (mkRule d) txn = Except.error () ∧
    (enabledD d = true → pick_rule reSearch [d] txn = Except.error ()) := by
  have hev : evalCond reSearch txn c = Except.error () := by
    rcases hop with hop | hop <;>
      simp only [evalCond, hop] <;>
      rcases hco with hco | hco
    · rw [hco]; rfl
    · cases hpf : pyFloat (condTv txn c) with
      | error e => rfl
      | ok a => simp only [hco]; rfl
    · rw [hco]; rfl
    · cases hpf : pyFloat (condTv txn c) with
      | error e => rfl
      | ok a => simp only [hco]; rfl
  have hm : RuleC.matches reSearch (mkRule d) txn = Except.error () := by
    rw [RuleC.matches, hconds]
    show evalCond reSearch txn c >>= _ = _
    rw [hev]; rfl
  refine ⟨hm, fun hen => ?_⟩
  simp only [pick_rule, List.filter, hen, List.map, List.insertionSort, List.orderedInsert]
  show RuleC.matches reSearch (mkRule d) txn >>= _ = _
  rw [hm]; rfl

/-- Witness for the amended C4 at the concrete rule and empty transaction. -/
theorem C4_amended_coercion_failure_propagates_witness :
    RuleC.matches reSearchF (mkRule gteBadRule) [] = Except.error () ∧
    pick_rule reSearchF [gteBadRule] [] = Except.error () :=
  ⟨(C4_amended_coercion_failure_propagates reSearchF [] gteBadRule
      ⟨some "amount", some "gte", PyVal.num 10⟩ [] rfl (Or.inl rfl) (Or.inl rfl)).1,
   (C4_amended_coercion_failure_propagates reSearchF [] gteBadRule
      ⟨some "amount", some "gte", PyVal.num 10⟩ [] rfl (Or.inl rfl) (Or.inl rfl)).2 rfl⟩

/-! ### C10: frame property of `Rule.apply` -/

/-- Updating one dict key leaves every other key's lookup unchanged. -/
theorem getKey_setKey_ne (k kk : String) (v : PyVal) (txn : Txn) (h : k ≠ kk) :
    getKey (setKey kk v txn) k = getKey txn k := by
  have hkk : (kk == k) = false := beq_eq_false_iff_ne.mpr (Ne.symm h)
  induction txn with
  | nil => simp [setKey, getKey, List.find?, hkk]
  | cons p rest ih =>
    by_cases hp : p.1 = kk
    · have hpt : (p.1 == kk) = true := beq_iff_eq.mpr hp
      have hpk : (p.1 == k) = false := by rw [hp]; exact hkk
      simp [setKey, hpt, getKey, List.find?, hkk, hpk]
    · have hpf : (p.1 == kk) = false := beq_eq_false_iff_ne.mpr hp
      by_cases hq : p.1 = k
      · have hqt : (p.1 == k) = true := beq_iff_eq.mpr hq
        simp [setKey, hpf, getKey, List.find?, hqt]
      · have hqf : (p.1 == k) = false := beq_eq_false_iff_ne.mpr hq
        simp only [setKey, hpf, Bool.false_eq_true, if_false]
        simp only [getKey, List.find?, hqf] at ih ⊢
        exact ih

/-- One action changes at most `categoryId`, `merchant` or `tags`. -/
theorem applyAct_frame (a : Act) (out out' : Txn) (hap : applyAct out a = Except.ok out')
    (k : String) (h1 : k ≠ "categoryId") (h2 : k ≠ "merchant") (h3 : k ≠ "tags") :
    getKey out' k = getKey out k := by
  unfold applyAct at hap
  split at hap
  · cases hap; exact getKey_setKey_ne _ _ _ _ h1
  · cases hap; exact getKey_setKey_ne _ _ _ _ h2
  · split at hap
    · cases hap; exact getKey_setKey_ne _ _ _ _ h3
    · cases hap; exact getKey_setKey_ne _ _ _ _ h3
    · exact Except.noConfusion hap
  · cases hap; rfl

/-- The action fold preserves every key other than the three written ones. -/
theorem applyActs_frame (k : String) (h1 : k ≠ "categoryId") (h2 : k ≠ "merchant")
    (h3 : k ≠ "tags") :
    ∀ (acts : List Act) (txn out : Txn),
      acts.foldlM applyAct txn = Except.ok out → getKey out k = getKey txn k
  | [], txn, out, h => by
    rw [List.foldlM_nil] at h
    cases h
    rfl
  | a :: acts, txn, out, h => by
    rw [List.foldlM_cons] at h
    cases hap : applyAct txn a with
    | error e =>
      rw [hap] at h
      exact Except.noConfusion h
    | ok mid =>
      rw [hap] at h
      have h' : acts.foldlM applyAct mid = Except.ok out := h
      rw [applyActs_frame k h1 h2 h3 acts mid out h',
        applyAct_frame a txn mid hap k h1 h2 h3]

/-- C10: `Rule.apply` returns a transaction view that agrees with the input on
every field other than `categoryId`, `merchant` and `tags`, whatever the
rule's actions (known or unknown) are. -/
theorem C10_apply_frame (d : RuleDoc) (txn out : Txn) (k : String)
    (hap : RuleC.apply (mkRule d) txn = Except.ok out)
    (h1 : k ≠ "categoryId") (h2 : k ≠ "merchant") (h3 : k ≠ "tags") :
    getKey out k = getKey txn k :=
  applyActs_frame k h1 h2 h3 (mkRule d).actions txn out hap

/-- A transaction and a rule exercising all four action branches. -/
def txn0 : Txn := [("amount", PyVal.num 5), ("categoryId", PyVal.str "old")]

/-- Rule with `set_category`, `rename_merchant`, `add_tag` and an unknown
action type. -/
def actRule : RuleDoc :=
  ⟨Option.none, Option.none, Option.none, some
    [⟨some "set_category", PyVal.str "x", PyVal.none, PyVal.none⟩,
     ⟨some "rename_merchant", PyVal.none, PyVal.str "M", PyVal.none⟩,
     ⟨some "add_tag", PyVal.none, PyVal.none, PyVal.str "t"⟩,
     ⟨some "mystery", PyVal.none, PyVal.none, PyVal.none⟩]⟩

/-- The view produced by applying `actRule` to `txn0`. -/
def out0 : Txn :=
  [("amount", PyVal.num 5), ("categoryId", PyVal.str "x"),
   ("merchant", PyVal.str "M"), ("tags", PyVal.list [PyVal.str "t"])]

/-- Witness for C10: the `amount` field survives the application of all four
action kinds. -/
theorem C10_apply_frame_witness : getKey out0 "amount" = getKey txn0 "amount" :=
  C10_apply_frame actRule txn0 out0 "amount" rfl
    (by decide) (by decide) (by decide)

/-! ### C1: characterization of `pick_rule`

The selection performed by `pick_rule` — filter on the enabled flag, stable
ascending sort by priority, first rule all of whose conditions hold — is
characterized here without reference to the sort: the returned rule is exactly
the enabled matching rule that is minimal for the lexicographic order
(priority, position in the input list). The stability of the sort is what
makes the input position the tie-breaker. -/

/-- Reduction helper: bind of a success. -/
theorem ok_bind {α β : Type} (a : α) (k : α → Except Unit β) :
    (Except.ok a >>= k) = k a := rfl

/-- Priority comparison lifted to position-tagged compiled rules. -/
def lePriP (a b : ℕ × RuleC) : Prop := a.2.priority ≤ b.2.priority

instance : DecidableRel lePriP :=
  fun a b => inferInstanceAs (Decidable (a.2.priority ≤ b.2.priority))

/-- Strict lexicographic order on (priority, input position): the order in
which a stable priority sort arranges distinct input elements. -/
def lexLt (p q : ℕ × RuleC) : Prop :=
  p.2.priority < q.2.priority ∨ (p.2.priority = q.2.priority ∧ p.1 < q.1)

/-- `lexLt` is asymmetric. -/
theorem lexLt_asymm {p q : ℕ × RuleC} (h1 : lexLt p q) (h2 : lexLt q p) : False := by
  rcases h1 with h1 | ⟨he1, hi1⟩ <;> rcases h2 with h2 | ⟨he2, hi2⟩
  · exact absurd (h1.trans h2) (lt_irrefl _)
  · rw [he2] at h1; exact absurd h1 (lt_irrefl _)
  · rw [he1] at h2; exact absurd h2 (lt_irrefl _)
  · exact absurd (hi1.trans hi2) (lt_irrefl _)

/-- `lexLt` implies non-strict priority order. -/
theorem lexLt_priority_le {p q : ℕ × RuleC} (h : lexLt p q) :
    p.2.priority ≤ q.2.priority := by
  rcases h with h | ⟨h, _⟩
  · exact le_of_lt h
  · exact le_of_eq h

/-- Inserting an element whose input position precedes everything in an
already `lexLt`-ordered list keeps the list `lexLt`-ordered: the crux of the
stability argument. -/
theorem orderedInsert_pairwise_lexLt (x : ℕ × RuleC) :
    ∀ l : List (ℕ × RuleC), l.Pairwise lexLt → (∀ y ∈ l, x.1 < y.1) →
      (l.orderedInsert lePriP x).Pairwise lexLt
  | [], _, _ => List.pairwise_singleton _ _
  | y :: ys, hp, hidx => by
    have hpl := List.pairwise_cons.mp hp
    rw [List.orderedInsert]
    split
    · -- x is placed in front: x ≼ everything that follows
      rename_i hle
      refine List.Pairwise.cons ?_ hp
      intro z hz
      rcases List.mem_cons.mp hz with rfl | hzys
      · rcases lt_or_eq_of_le hle with h | h
        · exact Or.inl h
        · exact Or.inr ⟨h, hidx z (List.mem_cons_self _ _)⟩
      · have hyz : lexLt y z := hpl.1 z hzys
        rcases lt_or_eq_of_le (le_trans hle (lexLt_priority_le hyz)) with h | h
        · exact Or.inl h
        · exact Or.inr ⟨h, hidx z (List.mem_cons_of_mem _ hzys)⟩
    · -- y stays in front of the insertion into the tail
      rename_i hnle
      have hyx : y.2.priority < x.2.priority := lt_of_not_le hnle
      refine List.Pairwise.cons ?_
        (orderedInsert_pairwise_lexLt x ys hpl.2
          (fun z hz => hidx z (List.mem_cons_of_mem _ hz)))
      intro z hz
      rcases (List.mem_orderedInsert _).mp hz with rfl | hzys
      · exact Or.inl hyx
      · exact hpl.1 z hzys

/-- Sorting a position-increasing list by priority yields a `lexLt`-ordered
list: sortedness plus stability in one invariant. -/
theorem insertionSort_pairwise_lexLt :
    ∀ l : List (ℕ × RuleC), l.Pairwise (fun p q => p.1 < q.1) →
      (l.insertionSort lePriP).Pairwise lexLt
  | [], _ => List.Pairwise.nil
  | x :: l, hp => by
    rw [List.insertionSort]
    refine orderedInsert_pairwise_lexLt x _
      (insertionSort_pairwise_lexLt l (List.pairwise_cons.mp hp).2) ?_
    intro y hy
    exact (List.pairwise_cons.mp hp).1 y ((List.mem_insertionSort _).mp hy)

/-- Sorting pairs by the priority of the second component and then projecting
agrees with projecting and then sorting. -/
theorem sort_pairs_snd (l : List (ℕ × RuleC)) :
    (List.insertionSort lePriP l).map Prod.snd =
      List.insertionSort lePri (l.map Prod.snd) :=
  List.map_insertionSort lePriP lePri Prod.snd l (fun _ _ _ _ => Iff.rfl)

/-- The enabled rules of the input, tagged with their input positions and
compiled. -/
def idxPairs (rules : List RuleDoc) : List (ℕ × RuleC) :=
  (rules.enum.filter (fun p => enabledD p.2)).map (fun p => (p.1, mkRule p.2))

/-- Filtering on the second component commutes with projecting it. -/
theorem filter_map_snd_comm (pred : RuleDoc → Bool) :
    ∀ l : List (ℕ × RuleDoc),
      (l.filter (fun p => pred p.2)).map Prod.snd = (l.map Prod.snd).filter pred
  | [] => rfl
  | p :: l => by
    by_cases h : pred p.2
    · simp [List.filter, h, filter_map_snd_comm pred l]
    · simp [List.filter, h, filter_map_snd_comm pred l]

/-- Projecting the tagged enabled rules gives exactly the `compiled` list that
`pick_rule` sorts. -/
theorem idxPairs_map_snd (rules : List RuleDoc) :
    (idxPairs rules).map Prod.snd = (rules.filter (fun r => enabledD r)).map mkRule := by
  unfold idxPairs
  rw [List.map_map]
  calc (rules.enum.filter (fun p => enabledD p.2)).map
        (Prod.snd ∘ fun p => (p.1, mkRule p.2))
      = ((rules.enum.filter (fun p => enabledD p.2)).map Prod.snd).map mkRule := by
        rw [List.map_map]
        rfl
    _ = ((rules.enum.map Prod.snd).filter (fun r => enabledD r)).map mkRule := by
        rw [filter_map_snd_comm]
    _ = (rules.filter (fun r => enabledD r)).map mkRule := by
        rw [List.enum_map_snd]

/-- `enum` tags carry strictly increasing positions. -/
theorem enum_pairwise_fst {α : Type} (l : List α) :
    l.enum.Pairwise (fun p q => p.1 < q.1) := by
  rw [List.pairwise_iff_get]
  intro i j hij
  rw [List.get_enum, List.get_enum]
  simpa using hij

/-- So do the tagged enabled rules. -/
theorem idxPairs_pairwise (rules : List RuleDoc) :
    (idxPairs rules).Pairwise (fun p q => p.1 < q.1) := by
  unfold idxPairs
  refine List.Pairwise.map _ (fun a b h => h) ?_
  exact ((enum_pairwise_fst rules).filter _)

/-- Membership in the tagged enabled rules, phrased through `get?`. -/
theorem mem_idxPairs {rules : List RuleDoc} {p : ℕ × RuleC} :
    p ∈ idxPairs rules ↔
      ∃ d, rules.get? p.1 = some d ∧ enabledD d = true ∧ p.2 = mkRule d := by
  unfold idxPairs
  constructor
  · intro h
    obtain ⟨q, hq, hmap⟩ := List.mem_map.mp h
    obtain ⟨hqe, hqp⟩ := List.mem_filter.mp hq
    have hget := List.mem_enum_iff_get?.mp hqe
    refine ⟨q.2, ?_, hqp, ?_⟩
    · rw [← hmap]; exact hget
    · rw [← hmap]
  · rintro ⟨d, hget, hen, hp2⟩
    refine List.mem_map.mpr ⟨(p.1, d), List.mem_filter.mpr ⟨?_, hen⟩, ?_⟩
    · exact List.mem_enum_iff_get?.mpr hget
    · rw [← hp2]

/-- `firstMatch` over a projected pair list returns `none` exactly when every
rule in the list fails to match (given that no evaluation raises). -/
theorem firstMatch_none_iff (reSearch : String → String → Except Unit Bool) (txn : Txn) :
    ∀ L : List (ℕ × RuleC),
      (∀ p ∈ L, ∃ b, RuleC.matches reSearch p.2 txn = Except.ok b) →
      (firstMatch reSearch txn (L.map Prod.snd) = Except.ok Option.none ↔
        ∀ p ∈ L, RuleC.matches reSearch p.2 txn = Except.ok false)
  | [], _ => by simp [firstMatch]
  | p :: L, hok => by
    obtain ⟨b, hb⟩ := hok p (List.mem_cons_self _ _)
    rw [List.map_cons]
    show (RuleC.matches reSearch p.2 txn >>= _) = _ ↔ _
    rw [hb, ok_bind]
    cases b
    · rw [if_neg (by simp)]
      rw [firstMatch_none_iff reSearch txn L
        (fun q hq => hok q (List.mem_cons_of_mem _ hq))]
      constructor
      · intro h q hq
        rcases List.mem_cons.mp hq with rfl | hqL
        · exact hb
        · exact h q hqL
      · intro h q hq
        exact h q (List.mem_cons_of_mem _ hq)
    · rw [if_pos rfl]
      constructor
      · intro h
        exact absurd h (by simp)
      · intro h
        have := h p (List.mem_cons_self _ _)
        rw [hb] at this
        simp at this
  termination_by L => L.length

/-- `firstMatch` over a `lexLt`-ordered projected pair list returns `some dd`
exactly when some pair carries `dd`, matches, and is `lexLt`-minimal among the
matching pairs. -/
theorem firstMatch_some_iff (reSearch : String → String → Except Unit Bool) (txn : Txn) :
    ∀ L : List (ℕ × RuleC), L.Pairwise lexLt →
      (∀ p ∈ L, ∃ b, RuleC.matches reSearch p.2 txn = Except.ok b) →
      ∀ dd : RuleDoc,
        (firstMatch reSearch txn (L.map Prod.snd) = Except.ok (some dd) ↔
          ∃ p ∈ L, p.2.rule = dd ∧ RuleC.matches reSearch p.2 txn = Except.ok true ∧
            ∀ q ∈ L, RuleC.matches reSearch q.2 txn = Except.ok true → q = p ∨ lexLt p q)
  | [], _, _, dd => by simp [firstMatch]
  | p :: L, hp, hok, dd => by
    obtain ⟨b, hb⟩ := hok p (List.mem_cons_self _ _)
    have hpl := List.pairwise_cons.mp hp
    rw [List.map_cons]
    show (RuleC.matches reSearch p.2 txn >>= _) = _ ↔ _
    rw [hb, ok_bind]
    cases b
    · rw [if_neg (by simp)]
      rw [firstMatch_some_iff reSearch txn L hpl.2
        (fun q hq => hok q (List.mem_cons_of_mem _ hq)) dd]
      constructor
      · rintro ⟨q, hqL, hqr, hqm, hmin⟩
        refine ⟨q, List.mem_cons_of_mem _ hqL, hqr, hqm, ?_⟩
        intro z hz hzm
        rcases List.mem_cons.mp hz with rfl | hzL
        · rw [hb] at hzm; simp at hzm
        · exact hmin z hzL hzm
      · rintro ⟨q, hq, hqr, hqm, hmin⟩
        rcases List.mem_cons.mp hq with rfl | hqL
        · rw [hb] at hqm; simp at hqm
        · exact ⟨q, hqL, hqr, hqm,
            fun z hz hzm => hmin z (List.mem_cons_of_mem _ hz) hzm⟩
    · rw [if_pos rfl]
      constructor
      · intro h
        have hdd : p.2.rule = dd := by
          have := h
          simp only [Except.ok.injEq, Option.some.injEq] at this
          exact this
        refine ⟨p, List.mem_cons_self _ _, hdd, hb, ?_⟩
        intro q hq _
        rcases List.mem_cons.mp hq with rfl | hqL
        · exact Or.inl rfl
        · exact Or.inr (hpl.1 q hqL)
      · rintro ⟨q, hq, hqrule, hqm, hmin⟩
        rcases List.mem_cons.mp hq with rfl | hqL
        · rw [hqrule]
        · have hlt := hpl.1 q hqL
          rcases hmin p (List.mem_cons_self _ _) hb with rfl | hqp
          · exact absurd hlt (fun hc => lexLt_asymm hc hc)
          · exact absurd hqp (fun hc => lexLt_asymm hlt hc)
  termination_by L => L.length

/-- `pick_rule` rewritten through the position-tagged pair list. -/
theorem pick_rule_eq (reSearch : String → String → Except Unit Bool)
    (rules : List RuleDoc) (txn : Txn) :
    pick_rule reSearch rules txn =
      firstMatch reSearch txn
        ((List.insertionSort lePriP (idxPairs rules)).map Prod.snd) := by
  unfold pick_rule
  rw [sort_pairs_snd, idxPairs_map_snd]

/-- C1: given that no rule's evaluation raises, `pick_rule` (i) returns `none`
exactly when no enabled rule matches, (ii) returns rule `dd` exactly when `dd`
sits at some input position `i`, is enabled, matches, and every other enabled
matching rule either has a strictly larger priority or has the same priority
and a position not before `i` (stability of the sort), and (iii) a rule with
an empty condition list always matches. -/
theorem C1_pick_rule_characterization
    (reSearch : String → String → Except Unit Bool)
    (rules : List RuleDoc) (txn : Txn)
    (hok : ∀ r ∈ rules, enabledD r = true →
      ∃ b, RuleC.matches reSearch (mkRule r) txn = Except.ok b) :
    (pick_rule reSearch rules txn = Except.ok Option.none ↔
      ∀ r ∈ rules, enabledD r = true →
        RuleC.matches reSearch (mkRule r) txn = Except.ok false) ∧
    (∀ dd : RuleDoc, pick_rule reSearch rules txn = Except.ok (some dd) ↔
      ∃ i, rules.get? i = some dd ∧ enabledD dd = true ∧
        RuleC.matches reSearch (mkRule dd) txn = Except.ok true ∧
        ∀ j e, rules.get? j = some e → enabledD e = true →
          RuleC.matches reSearch (mkRule e) txn = Except.ok true →
          (priD dd < priD e ∨ (priD dd = priD e ∧ i ≤ j))) ∧
    (∀ d : RuleDoc, (mkRule d).conditions = [] →
      RuleC.matches reSearch (mkRule d) txn = Except.ok true) := by
  have hLpw : (List.insertionSort lePriP (idxPairs rules)).Pairwise lexLt :=
    insertionSort_pairwise_lexLt _ (idxPairs_pairwise rules)
  have hmemL : ∀ p : ℕ × RuleC,
      p ∈ List.insertionSort lePriP (idxPairs rules) ↔ p ∈ idxPairs rules :=
    fun p => List.mem_insertionSort _
  have hokL : ∀ p ∈ List.insertionSort lePriP (idxPairs rules),
      ∃ b, RuleC.matches reSearch p.2 txn = Except.ok b := by
    intro p hpmem
    obtain ⟨d, hget, hen, hp2⟩ := mem_idxPairs.mp ((hmemL p).mp hpmem)
    rw [hp2]
    exact hok d (List.get?_mem hget) hen
  refine ⟨?_, ?_, ?_⟩
  · rw [pick_rule_eq, firstMatch_none_iff reSearch txn _ hokL]
    constructor
    · intro h r hr hen
      obtain ⟨i, hi⟩ := List.get?_of_mem hr
      exact h (i, mkRule r) ((hmemL _).mpr (mem_idxPairs.mpr ⟨r, hi, hen, rfl⟩))
    · intro h p hpmem
      obtain ⟨d, hget, hen, hp2⟩ := mem_idxPairs.mp ((hmemL p).mp hpmem)
      rw [hp2]
      exact h d (List.get?_mem hget) hen
  · intro dd
    rw [pick_rule_eq, firstMatch_some_iff reSearch txn _ hLpw hokL dd]
    constructor
    · rintro ⟨p, hpmem, hrule, hmatch, hmin⟩
      obtain ⟨d, hget, hen, hp2⟩ := mem_idxPairs.mp ((hmemL p).mp hpmem)
      have hdd : d = dd := by rw [hp2] at hrule; exact hrule
      subst hdd
      rw [hp2] at hmatch
      refine ⟨p.1, hget, hen, hmatch, ?_⟩
      intro j e hje hene hem
      have hqmem : (j, mkRule e) ∈ List.insertionSort lePriP (idxPairs rules) :=
        (hmemL _).mpr (mem_idxPairs.mpr ⟨e, hje, hene, rfl⟩)
      rcases hmin (j, mkRule e) hqmem hem with heq | hlex
      · right
        constructor
        · simp only [priD]
          rw [← hp2, ← heq]
        · rw [← heq]
      · rcases hlex with h | ⟨h, hij⟩
        · left
          simp only [priD]
          rw [← hp2]
          exact h
        · right
          refine ⟨?_, le_of_lt hij⟩
          simp only [priD]
          rw [← hp2]
          exact h
    · rintro ⟨i, hget, hen, hmatch, hmin⟩
      refine ⟨(i, mkRule dd),
        (hmemL _).mpr (mem_idxPairs.mpr ⟨dd, hget, hen, rfl⟩), rfl, hmatch, ?_⟩
      intro q hq hqm
      obtain ⟨e, hje, hene, hq2⟩ := mem_idxPairs.mp ((hmemL q).mp hq)
      rw [hq2] at hqm
      rcases hmin q.1 e hje hene hqm with h | ⟨h, hij⟩
      · right
        left
        rw [hq2]
        exact h
      · rcases lt_or_eq_of_le hij with hlt | hieq
        · right
          right
          refine ⟨?_, hlt⟩
          rw [hq2]
          exact h
        · left
          rw [← hieq] at hje
          rw [hget] at hje
          have he : dd = e := by
            injection hje
          have : q = (q.1, q.2) := rfl
          rw [this, hq2, ← he, ← hieq]
  · intro d h
    rw [RuleC.matches, h]
    rfl

/-- Two enabled rules with equal priority and no conditions; the first
supplied must win. -/
def d1ex : RuleDoc := ⟨some 5, Option.none, some [], Option.none⟩

/-- Second rule of the stability pair. -/
def d2ex : RuleDoc := ⟨some 5, some true, Option.none, Option.none⟩

/-- Witness for C1: instantiating the characterization at the stability pair
shows the earlier-supplied of two equal-priority enabled rules is returned. -/
theorem C1_pick_rule_characterization_witness :
    ∃ i, [d1ex, d2ex].get? i = some d1ex ∧ enabledD d1ex = true ∧
      RuleC.matches reSearchF (mkRule d1ex) [] = Except.ok true ∧
      ∀ j e, [d1ex, d2ex].get? j = some e → enabledD e = true →
        RuleC.matches reSearchF (mkRule e) [] = Except.ok true →
        (priD d1ex < priD e ∨ (priD d1ex = priD e ∧ i ≤ j)) :=
  (((C1_pick_rule_characterization reSearchF [d1ex, d2ex] []
      (by intro r hr _; fin_cases hr <;> exact ⟨true, rfl⟩)).2.1) d1ex).mp rfl

end PFT
